import Mathlib

/-!
Verification of the NSAI orchestrator core against its specification.

The definitions below are a shallow embedding of the Python sources:
`src/core/elite_architecture.py` (circuit breaker, saga orchestrator,
multi-layer cache, token-bucket rate limiter),
`src/agents/orchestrator_agent.py` (plan decomposition and execution), and
`src/mcp_server_enhanced.py` (RPC handling and the task-lifecycle registry).
Machine time is modelled as natural-number seconds; values stored by agents
and caches are modelled as natural numbers; Python `dict`s are modelled as
association lists that update in place (preserving insertion order, as
Python dicts do) and append fresh keys at the end.
-/

namespace NSAI

/-! ### Association-list helpers (model of Python dict operations) -/

/-- Look up the first binding of `k` (Python `d[k]` read / `k in d`). -/
def lookupA {α β : Type} [DecidableEq α] (l : List (α × β)) (k : α) : Option β :=
  match l with
  | [] => none
  | (k', v) :: rest => if k' = k then some v else lookupA rest k

/-- Python `d[k] = v`: replace the binding in place if `k` is present
(keeping its position, as Python dicts do), else append it at the end. -/
def setA {α β : Type} [DecidableEq α] (l : List (α × β)) (k : α) (v : β) : List (α × β) :=
  match l with
  | [] => [(k, v)]
  | (k', v') :: rest => if k' = k then (k', v) :: rest else (k', v') :: setA rest k v

/-- Python `del d[k]`: remove the first binding of `k` (a no-op if absent;
callers that model Python's KeyError check presence separately). -/
def delA {α β : Type} [DecidableEq α] (l : List (α × β)) (k : α) : List (α × β) :=
  match l with
  | [] => []
  | (k', v') :: rest => if k' = k then rest else (k', v') :: delA rest k

theorem lookupA_setA_self {α β : Type} [DecidableEq α] (l : List (α × β)) (k : α) (v : β) :
    lookupA (setA l k v) k = some v := by
  induction l with
  | nil => simp [setA, lookupA]
  | cons p rest ih =>
    obtain ⟨k', v'⟩ := p
    by_cases h : k' = k
    · simp [setA, lookupA, h]
    · simp [setA, lookupA, h, ih]

theorem lookupA_setA_ne {α β : Type} [DecidableEq α] (l : List (α × β)) (k k' : α) (v : β)
    (h : k ≠ k') : lookupA (setA l k v) k' = lookupA l k' := by
  induction l with
  | nil => simp [setA, lookupA, h]
  | cons p rest ih =>
    obtain ⟨k0, v0⟩ := p
    by_cases h0 : k0 = k
    · subst h0
      simp [setA, lookupA, h]
    · simp [setA, lookupA, h0, ih]

theorem lookupA_none_ne {α β : Type} [DecidableEq α] {l : List (α × β)} {k : α}
    (h : lookupA l k = none) : ∀ p ∈ l, p.1 ≠ k := by
  induction l with
  | nil => simp
  | cons q rest ih =>
    obtain ⟨k0, v0⟩ := q
    by_cases h0 : k0 = k
    · simp [lookupA, h0] at h
    · simp only [lookupA, if_neg h0] at h
      intro p hp
      rcases List.mem_cons.mp hp with hp | hp
      · simp [hp, h0]
      · exact ih h p hp

theorem lookupA_mem {α β : Type} [DecidableEq α] {l : List (α × β)} {k : α} {v : β}
    (h : lookupA l k = some v) : (k, v) ∈ l := by
  induction l with
  | nil => simp [lookupA] at h
  | cons q rest ih =>
    obtain ⟨k0, v0⟩ := q
    by_cases h0 : k0 = k
    · subst h0
      simp [lookupA] at h
      simp [h]
    · simp only [lookupA, if_neg h0] at h
      exact List.mem_cons_of_mem _ (ih h)

theorem delA_sublist {α β : Type} [DecidableEq α] (l : List (α × β)) (k : α) :
    (delA l k).Sublist l := by
  induction l with
  | nil => simp [delA]
  | cons q rest ih =>
    obtain ⟨k0, v0⟩ := q
    by_cases h0 : k0 = k
    · simp [delA, h0]
    · simpa [delA, h0] using ih

theorem mem_delA {α β : Type} [DecidableEq α] {l : List (α × β)} {k : α} {p : α × β}
    (h : p ∈ delA l k) : p ∈ l :=
  (delA_sublist l k).mem h

theorem delA_setA_fresh {α β : Type} [DecidableEq α] {l : List (α × β)} {k : α} (v : β)
    (h : lookupA l k = none) : delA (setA l k v) k = l := by
  induction l with
  | nil => simp [setA, delA]
  | cons q rest ih =>
    obtain ⟨k0, v0⟩ := q
    by_cases h0 : k0 = k
    · simp [lookupA, h0] at h
    · simp only [lookupA, if_neg h0] at h
      simp [setA, delA, h0, ih h]

theorem mem_delA_key_ne {α β : Type} [DecidableEq α] {l : List (α × β)} {k : α} {p : α × β}
    (hnd : (l.map Prod.fst).Nodup) (hp : p ∈ delA l k) : p.1 ≠ k := by
  induction l with
  | nil => simp [delA] at hp
  | cons q rest ih =>
    obtain ⟨k0, v0⟩ := q
    simp only [List.map_cons, List.nodup_cons] at hnd
    by_cases h0 : k0 = k
    · subst h0
      simp only [delA, if_pos rfl] at hp
      intro hk
      exact hnd.1 (hk ▸ List.mem_map_of_mem Prod.fst hp)
    · simp only [delA, if_neg h0] at hp
      rcases List.mem_cons.mp hp with hp | hp
      · simp [hp, h0]
      · exact ih hnd.2 hp

/-! ### CircuitBreaker (`src/core/elite_architecture.py`, lines 21-85)

State and transitions of `CircuitBreaker`.  `call` is modelled as a function
of the current clock value `now` and of whether the guarded action succeeds;
it returns what the Python method does (return the result, re-raise the
action's exception, or raise the circuit-open error) together with the
breaker state after all bookkeeping. -/

inductive CircuitState where
  | CLOSED
  | OPEN
  | HALF_OPEN
deriving DecidableEq, Repr

structure CircuitBreaker where
  failure_threshold : Nat
  recovery_timeout : Nat
  success_threshold : Nat
  failure_count : Nat
  success_count : Nat
  last_failure_time : Option Nat
  state : CircuitState
deriving DecidableEq, Repr

/-- Constructor defaults of `CircuitBreaker.__init__`: zero counters, no
recorded failure, state `CLOSED`. -/
def CircuitBreaker.init (ft rt st : Nat) : CircuitBreaker :=
  { failure_threshold := ft
    recovery_timeout := rt
    success_threshold := st
    failure_count := 0
    success_count := 0
    last_failure_time := none
    state := .CLOSED }

/-- Model of `CircuitBreaker._should_attempt_reset`: true iff a failure time
is recorded and strictly more than `recovery_timeout` has elapsed. -/
def CircuitBreaker.should_attempt_reset (cb : CircuitBreaker) (now : Nat) : Bool :=
  match cb.last_failure_time with
  | none => false
  | some t => decide (now - t > cb.recovery_timeout)

/-- Model of `CircuitBreaker._on_success`: reset `failure_count`; in
`HALF_OPEN` bump `success_count` and close the circuit once it reaches
`success_threshold`, resetting `success_count`. -/
def CircuitBreaker.on_success (cb : CircuitBreaker) : CircuitBreaker :=
  let cb := { cb with failure_count := 0 }
  if cb.state = .HALF_OPEN then
    let cb := { cb with success_count := cb.success_count + 1 }
    if cb.success_count ≥ cb.success_threshold then
      { cb with state := .CLOSED, success_count := 0 }
    else cb
  else cb

/-- Model of `CircuitBreaker._on_failure`: bump `failure_count` and stamp
`last_failure_time`; from `HALF_OPEN` reopen immediately (clearing
`success_count`), otherwise open once `failure_count` reaches
`failure_threshold`. -/
def CircuitBreaker.on_failure (cb : CircuitBreaker) (now : Nat) : CircuitBreaker :=
  let cb := { cb with failure_count := cb.failure_count + 1, last_failure_time := some now }
  if cb.state = .HALF_OPEN then
    { cb with state := .OPEN, success_count := 0 }
  else if cb.failure_count ≥ cb.failure_threshold then
    { cb with state := .OPEN }
  else cb

/-- Outcome of one `CircuitBreaker.call`: the action ran and returned,
the action ran and its exception was re-raised, or the circuit-open
exception was raised without running the action. -/
inductive CallOutcome where
  | ok
  | errRaised
  | circuitOpen
deriving DecidableEq, Repr

/-- Model of `CircuitBreaker.call`: in `OPEN`, either move to `HALF_OPEN`
when `_should_attempt_reset` holds or fail fast with the circuit-open
exception; otherwise run the action and do success/failure bookkeeping. -/
def CircuitBreaker.call (cb : CircuitBreaker) (now : Nat) (actionSucceeds : Bool) :
    CallOutcome × CircuitBreaker :=
  let gate : Option CircuitBreaker :=
    if cb.state = .OPEN then
      if cb.should_attempt_reset now then some { cb with state := .HALF_OPEN } else none
    else some cb
  match gate with
  | none => (.circuitOpen, cb)
  | some cb1 =>
    if actionSucceeds then (.ok, cb1.on_success) else (.errRaised, cb1.on_failure now)

/-- Breaker with `failure_threshold=3`, `recovery_timeout=10`,
`success_threshold=2`, currently `OPEN` with the last failure at time 5.
Used to witness the fail-fast theorem. -/
def cbOpenDemo : CircuitBreaker :=
  { CircuitBreaker.init 3 10 2 with state := .OPEN, last_failure_time := some 5 }

/-- Breaker states along the C3 scenario: a fresh breaker with
`failure_threshold=3`, `recovery_timeout=10`, `success_threshold=2` after
one, two and three consecutive failing calls. -/
def cbFail1 : CircuitBreaker := ((CircuitBreaker.init 3 10 2).call 0 false).2

def cbFail2 : CircuitBreaker := (cbFail1.call 1 false).2

def cbFail3 : CircuitBreaker := (cbFail2.call 2 false).2

/-- The breaker after the recovery timeout elapsed and one successful call
was admitted: it is observed in `HALF_OPEN` with one recorded success. -/
def cbHalf1 : CircuitBreaker := (cbFail3.call 13 true).2

/-- The half-open breaker after a second consecutive successful call. -/
def cbHalf2 : CircuitBreaker := (cbHalf1.call 14 true).2

/-- The half-open breaker after a single failing call instead. -/
def cbHalfBack : CircuitBreaker := (cbHalf1.call 14 false).2

/-- C3: for a breaker with `failure_threshold=3` and `success_threshold=2`,
starting `CLOSED`, three consecutive failing calls transition the state to
`OPEN` (after two it is still `CLOSED`); in `HALF_OPEN`, two consecutive
successful calls transition the state to `CLOSED` and reset `success_count`;
and a single failing call in `HALF_OPEN` goes straight back to `OPEN`. -/
theorem circuit_breaker_thresholds :
    cbFail2.state = .CLOSED ∧ cbFail3.state = .OPEN ∧
    cbHalf1.state = .HALF_OPEN ∧
    cbHalf2.state = .CLOSED ∧ cbHalf2.success_count = 0 ∧
    cbHalfBack.state = .OPEN := by
  decide

/-- C4: any call made while the breaker is `OPEN` and `now - last_failure_time`
does not exceed `recovery_timeout` raises the circuit-open error without
invoking the action and leaves the breaker state (all counters and the
failure timestamp) completely unchanged. -/
theorem circuit_breaker_fail_fast (cb : CircuitBreaker) (now t : Nat) (b : Bool)
    (hstate : cb.state = .OPEN) (hlast : cb.last_failure_time = some t)
    (hrec : now - t ≤ cb.recovery_timeout) :
    cb.call now b = (.circuitOpen, cb) := by
  simp [CircuitBreaker.call, CircuitBreaker.should_attempt_reset, hstate, hlast,
    Nat.not_lt.mpr hrec]

/-- Witness for C4: the breaker `cbOpenDemo` (OPEN, last failure at 5,
recovery timeout 10) called at time 7 fails fast and is unchanged. -/
theorem circuit_breaker_fail_fast_witness :
    cbOpenDemo.call 7 true = (.circuitOpen, cbOpenDemo) :=
  circuit_breaker_fail_fast cbOpenDemo 7 5 true rfl rfl (by decide)

/-! ### SagaOrchestrator (`src/core/elite_architecture.py`, lines 191-290)

A `SagaStep` is modelled with the outcome of its `action` (`some r` when the
action returns `r` within the step's timeout, `none` when it raises or times
out) and of its `compensation` (`true` when it succeeds within the timeout).
A run produces the results map, the ordered event log appended to the event
store, the ordered list of compensation invocations `(name, timeout)`, and
the failing step's name when `execute` re-raises. -/

inductive SagaEvent where
  | started (step : String)
  | completed (step : String)
  | compensated (step : String)
  | compensationFailed (step : String)
deriving DecidableEq, Repr

structure SagaStep where
  name : String
  timeout : Nat
  actionOutcome : Option Nat
  compSucceeds : Bool
deriving DecidableEq, Repr

structure SagaRun where
  results : List (String × Nat)
  events : List SagaEvent
  compCalls : List (String × Nat)
  failedStep : Option String
deriving DecidableEq, Repr

/-- Event appended by `_compensate` for one step: `SagaStepCompensated` on
success, `SagaCompensationFailed` on failure. -/
def compEvent (st : SagaStep) : SagaEvent :=
  if st.compSucceeds then .compensated st.name else .compensationFailed st.name

/-- Model of `SagaOrchestrator._compensate`, applied to the already-reversed
list of completed steps (`for step in reversed(self.completed_steps)`): each
step's compensation is invoked under that step's own timeout, its event is
logged, and a failed compensation does not stop the sweep. -/
def sagaCompensate : List SagaStep → List SagaEvent × List (String × Nat)
  | [] => ([], [])
  | st :: rest =>
    let (evs, calls) := sagaCompensate rest
    (compEvent st :: evs, (st.name, st.timeout) :: calls)

/-- Model of the loop in `SagaOrchestrator.execute` with the accumulated
`completed_steps` list: log `SagaStepStarted`, run the action under its
timeout; on success log `SagaStepCompleted`, record the result and continue;
on raise/timeout stop, compensate `reversed(completed_steps)` and re-raise
naming the failing step. -/
def sagaGo : List SagaStep → List SagaStep → SagaRun
  | [], _ => ⟨[], [], [], none⟩
  | s :: rest, completed =>
    match s.actionOutcome with
    | none =>
      let (evs, calls) := sagaCompensate completed.reverse
      ⟨[], SagaEvent.started s.name :: evs, calls, some s.name⟩
    | some r =>
      let run := sagaGo rest (completed ++ [s])
      ⟨(s.name, r) :: run.results,
       SagaEvent.started s.name :: SagaEvent.completed s.name :: run.events,
       run.compCalls, run.failedStep⟩

/-- Model of `SagaOrchestrator.execute`, starting with no completed steps. -/
def sagaExecute (steps : List SagaStep) : SagaRun :=
  sagaGo steps []

theorem sagaCompensate_eq (l : List SagaStep) :
    sagaCompensate l = (l.map compEvent, l.map fun st => (st.name, st.timeout)) := by
  induction l with
  | nil => rfl
  | cons st rest ih => simp [sagaCompensate, ih]

theorem sagaGo_failure (pre : List SagaStep) (s : SagaStep) (post : List SagaStep)
    (hpre : ∀ st ∈ pre, st.actionOutcome.isSome) (hs : s.actionOutcome = none) :
    ∀ completed : List SagaStep,
      sagaGo (pre ++ s :: post) completed =
        ⟨pre.map (fun st => (st.name, st.actionOutcome.getD 0)),
         (pre.flatMap fun st => [SagaEvent.started st.name, SagaEvent.completed st.name])
           ++ SagaEvent.started s.name :: (completed ++ pre).reverse.map compEvent,
         (completed ++ pre).reverse.map (fun st => (st.name, st.timeout)),
         some s.name⟩ := by
  induction pre with
  | nil =>
    intro completed
    simp [sagaGo, hs, sagaCompensate_eq]
  | cons p pre' ih =>
    intro completed
    have hp : p.actionOutcome.isSome := hpre p (by simp)
    obtain ⟨r, hr⟩ := Option.isSome_iff_exists.mp hp
    have hpre' : ∀ st ∈ pre', st.actionOutcome.isSome := fun st hst => hpre st (by simp [hst])
    have hrec := ih hpre' (completed ++ [p])
    simp only [List.cons_append, sagaGo, hr, List.append_eq]
    rw [hrec]
    simp [hr, List.append_assoc]

/-- C2: for every saga whose steps all succeed before a step whose action
raises or times out, no later step is started (the event log stops at the
failing step's `started` event); the compensation of every completed step is
invoked in strict reverse order of completion, each under its own timeout; a
failed compensation is logged as `compensationFailed` without stopping the
sweep over earlier steps; and `execute` re-raises a saga failure naming the
failing step. -/
theorem saga_reverse_compensation (pre : List SagaStep) (s : SagaStep) (post : List SagaStep)
    (hpre : ∀ st ∈ pre, st.actionOutcome.isSome) (hs : s.actionOutcome = none) :
    sagaExecute (pre ++ s :: post) =
      ⟨pre.map (fun st => (st.name, st.actionOutcome.getD 0)),
       (pre.flatMap fun st => [SagaEvent.started st.name, SagaEvent.completed st.name])
         ++ SagaEvent.started s.name :: pre.reverse.map compEvent,
       pre.reverse.map (fun st => (st.name, st.timeout)),
       some s.name⟩ := by
  have h := sagaGo_failure pre s post hpre hs []
  simpa [sagaExecute] using h

/-- Three-step saga of the spec's example: steps 1 and 2 succeed, step 3's
action fails, all compensations succeed. -/
def sagaDemo : List SagaStep :=
  [⟨"step1", 30, some 1, true⟩, ⟨"step2", 30, some 2, true⟩, ⟨"step3", 45, none, true⟩]

/-- Witness for C2: on the three-step demo saga, compensation runs for
step 2 then step 1 (each under its own timeout), step 3 never completes,
and the failure names step 3. -/
theorem saga_reverse_compensation_witness :
    sagaExecute sagaDemo =
      ⟨[("step1", 1), ("step2", 2)],
       [.started "step1", .completed "step1", .started "step2", .completed "step2",
        .started "step3", .compensated "step2", .compensated "step1"],
       [("step2", 30), ("step1", 30)],
       some "step3"⟩ := by
  have h := saga_reverse_compensation
    [⟨"step1", 30, some 1, true⟩, ⟨"step2", 30, some 2, true⟩] ⟨"step3", 45, none, true⟩ []
    (by decide) rfl
  simpa [sagaDemo, compEvent] using h

/-! ### RateLimiter token bucket (`src/core/elite_architecture.py`, lines 541-589)

Model of the atomic Lua script of `RateLimiter.check_token_bucket`: the
per-key hash `{tokens, last_refill}` is an optional entry (absent for a
fresh key, or once the Redis key's TTL of `capacity * refill_period`
seconds has expired); reads of an expired entry see the defaults
`tokens = capacity`, `last_refill = now`.  On allow the script writes the
decremented token count, stamps `last_refill = now` and resets the key's
TTL; on deny it writes nothing. -/

structure TBEntry where
  tokens : Nat
  last_refill : Nat
  expire_at : Nat
deriving DecidableEq, Repr

/-- One admission check of the token-bucket script: add
`floor((now - last_refill) / refill_period) * refill_rate` tokens capped at
`capacity`, then consume one token and allow iff at least one is
available. -/
def tbCheck (entry : Option TBEntry) (capacity refill_rate refill_period now : Nat) :
    Bool × Option TBEntry :=
  let live : Option TBEntry :=
    match entry with
    | some e => if now < e.expire_at then some e else none
    | none => none
  let tokens0 := match live with | some e => e.tokens | none => capacity
  let last := match live with | some e => e.last_refill | none => now
  let tokens := min capacity (tokens0 + ((now - last) / refill_period) * refill_rate)
  if 1 ≤ tokens then
    (true, some ⟨tokens - 1, now, now + capacity * refill_period⟩)
  else
    (false, entry)

/-- Run a sequence of admission checks against one bucket key, at the given
clock values, returning each check's verdict. -/
def tbRun (entry : Option TBEntry) (capacity refill_rate refill_period : Nat) :
    List Nat → List Bool × Option TBEntry
  | [] => ([], entry)
  | t :: ts =>
    let step := tbCheck entry capacity refill_rate refill_period t
    let rest := tbRun step.2 capacity refill_rate refill_period ts
    (step.1 :: rest.1, rest.2)

/-- C5: for a bucket with `capacity=5`, `refill_rate=1`, `refill_period=1`
on a fresh key, five immediate checks succeed, the sixth is denied, and
after one second exactly one further check succeeds; and in general each
check adds `floor(elapsed / refill_period) * refill_rate` tokens since
`last_refill` capped at `capacity`, then consumes one token iff at least
one is available (writing nothing on deny). -/
theorem token_bucket_behaviour :
    (tbRun none 5 1 1 [0, 0, 0, 0, 0, 0, 1, 1]).1 =
      [true, true, true, true, true, false, true, false] ∧
    ∀ tokens last cap rate period now : Nat,
      tbCheck (some ⟨tokens, last, now + 1⟩) cap rate period now =
        (if 1 ≤ min cap (tokens + ((now - last) / period) * rate) then
          (true, some ⟨min cap (tokens + ((now - last) / period) * rate) - 1,
                       now, now + cap * period⟩)
         else (false, some ⟨tokens, last, now + 1⟩)) := by
  refine ⟨by decide, ?_⟩
  intro tokens last cap rate period now
  simp [tbCheck]

/-! ### MultiLayerCache (`src/core/elite_architecture.py`, lines 299-381)

The L1 dict, the `access_time` / `access_count` bookkeeping dicts and the
L2 (Redis) store are association lists; an L2 entry carries the value and
its absolute expiry instant (`setex`), and reads treat an entry whose
expiry has passed as absent.  L1 entries carry no expiry, exactly as in the
source.  Operations that can hit a Python `KeyError` (deleting the eviction
candidate) or `ValueError` (`min` of an empty dict) return `Except`. -/

inductive CacheErr where
  | keyError (k : String)
  | valueError
deriving DecidableEq, Repr

structure MultiLayerCache where
  l1_cache : List (String × Nat)
  l1_size : Nat
  default_ttl : Nat
  access_time : List (String × Nat)
  access_count : List (String × Nat)
  l2 : List (String × Nat × Nat)
deriving DecidableEq, Repr

/-- Fresh cache of `MultiLayerCache.__init__`: empty layers and empty
bookkeeping. -/
def mlcInit (l1_size default_ttl : Nat) : MultiLayerCache :=
  ⟨[], l1_size, default_ttl, [], [], []⟩

/-- Python `min(access_time.items(), key=lambda x: x[1])`: the first entry
with minimal recorded access time (earlier entries win ties, as `min`
does). -/
def argminTime : List (String × Nat) → Option (String × Nat)
  | [] => none
  | (k, v) :: rest =>
    match argminTime rest with
    | none => some (k, v)
    | some (k', v') => if v' < v then some (k', v') else some (k, v)

/-- Model of `MultiLayerCache._promote_to_l1`: when L1 is at capacity,
delete the entry with the least recorded access time from `l1_cache`,
`access_time` and `access_count` (each `del` raises `KeyError` when the key
is absent from that dict), then insert the promoted entry into all three. -/
def promoteToL1 (c : MultiLayerCache) (key : String) (v : Nat) (now : Nat) :
    Except CacheErr MultiLayerCache :=
  let insert : MultiLayerCache → MultiLayerCache := fun c =>
    { c with l1_cache := setA c.l1_cache key v
             access_time := setA c.access_time key now
             access_count := setA c.access_count key 1 }
  if c.l1_cache.length ≥ c.l1_size then
    match argminTime c.access_time with
    | none => .error .valueError
    | some (lru_key, _) =>
      if (lookupA c.l1_cache lru_key).isSome then
        if (lookupA c.access_count lru_key).isSome then
          .ok (insert
            { c with l1_cache := delA c.l1_cache lru_key
                     access_time := delA c.access_time lru_key
                     access_count := delA c.access_count lru_key })
        else .error (.keyError lru_key)
      else .error (.keyError lru_key)
  else .ok (insert c)

/-- Model of `MultiLayerCache.get`: on an L1 hit bump `access_count` and
stamp `access_time` and return the value (never consulting any TTL); on an
L1 miss read L2 and, when the entry is unexpired, promote it into L1 and
return it; otherwise return `none`. -/
def mlcGet (c : MultiLayerCache) (now : Nat) (key : String) :
    Except CacheErr (Option Nat × MultiLayerCache) :=
  match lookupA c.l1_cache key with
  | some v =>
    .ok (some v,
      { c with access_count := setA c.access_count key ((lookupA c.access_count key).getD 0 + 1)
               access_time := setA c.access_time key now })
  | none =>
    match lookupA c.l2 key with
    | some p =>
      if now < p.2 then
        match promoteToL1 c key p.1 now with
        | .ok c' => .ok (some p.1, c')
        | .error e => .error e
      else .ok (none, c)
    | none => .ok (none, c)

/-- Model of `MultiLayerCache.set`: write through to L2 with the given TTL
(the default TTL when the argument is absent or falsy, per `ttl or
self.default_ttl`), then promote into L1. -/
def mlcSet (c : MultiLayerCache) (now : Nat) (key : String) (v : Nat) (ttl : Option Nat) :
    Except CacheErr MultiLayerCache :=
  let t := match ttl with
    | some n => if n = 0 then c.default_ttl else n
    | none => c.default_ttl
  promoteToL1 { c with l2 := setA c.l2 key (v, now + t) } key v now

/-- Model of Python `s.startswith(pat)`: character-list prefix test
(structural, so concrete instances reduce in the kernel). -/
def strHasPre (pat s : String) : Bool :=
  pat.data.isPrefixOf s.data

/-- Model of `MultiLayerCache.invalidate`: drop every L1 key starting with
the pattern (leaving `access_time` and `access_count` untouched, as the
source does), drop every matching L2 key, and return the removed count. -/
def mlcInvalidate (c : MultiLayerCache) (pat : String) : MultiLayerCache × Nat :=
  let removed1 := (c.l1_cache.filter fun p => strHasPre pat p.1).length
  let removed2 := (c.l2.filter fun p => strHasPre pat p.1).length
  ({ c with l1_cache := c.l1_cache.filter fun p => !(strHasPre pat p.1)
            l2 := c.l2.filter fun p => !(strHasPre pat p.1) },
   removed1 + removed2)

/-- Counterexample to C6 as stated: on a fresh cache (L1 capacity 2), `set`
of key `k` with TTL 1 at time 0 followed by `get` at time 10 — well past
the TTL — still returns the value (it is served from L1, which never
expires entries), where the claim requires `none`. -/
theorem mlc_ttl_counterexample :
    ((mlcSet (mlcInit 2 300) 0 "k" 42 (some 1)).bind fun c =>
      (mlcGet c 10 "k").map Prod.fst) = .ok (some 42) ∧ (0 + 1 : Nat) < 10 :=
  ⟨rfl, by decide⟩

/-- Cache state reached from `mlcInit 2 300` by `mlcSet` of `k ↦ 7` at time
0 with the default TTL; used to witness the amended C6 theorem. -/
def mlcDemo : MultiLayerCache :=
  ⟨[("k", 7)], 2, 300, [("k", 0)], [("k", 1)], [("k", (7, 300))]⟩

/-- C6 (amended): `get(key)` immediately after a successful `set(key, v)`
returns `v`; and a `get` of a key that is absent from L1 and whose L2 entry
is expired (or absent) returns `none`.  L1 entries are not expired by TTL,
so a key still resident in L1 is returned even past its TTL — only after it
leaves L1 does TTL expiry make `get` return `none`. -/
theorem mlc_ttl_amended :
    (∀ (c : MultiLayerCache) (now : Nat) (k : String) (v : Nat) (ttl : Option Nat)
        (c' : MultiLayerCache), mlcSet c now k v ttl = .ok c' →
        (mlcGet c' now k).map Prod.fst = .ok (some v)) ∧
    (∀ (c : MultiLayerCache) (now : Nat) (k : String),
        lookupA c.l1_cache k = none →
        (∀ p : Nat × Nat, lookupA c.l2 k = some p → p.2 ≤ now) →
        (mlcGet c now k).map Prod.fst = .ok none) := by
  constructor
  · intro c now k v ttl c' hset
    simp only [mlcSet, promoteToL1] at hset
    split at hset
    · split at hset
      · exact absurd hset (by simp)
      · split at hset
        · split at hset
          · cases hset
            simp [mlcGet, lookupA_setA_self, Except.map]
          · exact absurd hset (by simp)
        · exact absurd hset (by simp)
    · cases hset
      simp [mlcGet, lookupA_setA_self, Except.map]
  · intro c now k h1 h2
    simp only [mlcGet, h1]
    cases hl2 : lookupA c.l2 k with
    | none => rfl
    | some p =>
      have := h2 p hl2
      simp [Nat.not_lt.mpr this, Except.map]

/-- Witness for the amended C6 theorem: in the concrete state `mlcDemo`
produced by `set("k", 7)` at time 0, an immediate `get` returns 7; and on a
fresh cache a `get` of an absent key returns `none`. -/
theorem mlc_ttl_amended_witness :
    (mlcGet mlcDemo 0 "k").map Prod.fst = .ok (some 7) ∧
    (mlcGet (mlcInit 2 300) 5 "x").map Prod.fst = .ok none := by
  constructor
  · exact mlc_ttl_amended.1 (mlcInit 2 300) 0 "k" 7 none mlcDemo rfl
  · exact mlc_ttl_amended.2 (mlcInit 2 300) 5 "x" rfl
      (by intro p hp; simp [lookupA] at hp)

/-- C9 (code behaviour at the failing input): with L1 capacity 1, the
sequence `set a`, `invalidate "a"`, `set b`, `set c` raises
`KeyError("a")` — `invalidate` removed `a` from `l1_cache` but left it in
`access_time`, so the eviction performed by the final `set` selects `a` as
the least-recently-used key and `del l1_cache["a"]` fails, contradicting
the claim that the eviction key is always present in L1 and that `get` and
`set` never raise. -/
theorem mlc_invalidate_keyerror :
    ((mlcSet (mlcInit 1 300) 0 "a" 1 none).bind fun c1 =>
      (mlcSet (mlcInvalidate c1 "a").1 1 "b" 2 none).bind fun c3 =>
        mlcSet c3 2 "c" 3 none) = .error (.keyError "a") := rfl

/-! ### AgentOrchestrator (`src/agents/orchestrator_agent.py`)

Plans are the JSON dictionaries produced by `decompose_task`; agent
executors are black boxes, modelled as a map from agent name to `none`
(name not in `self.agents`) or the outcome of invoking it (`.error msg`
when it raises, `.ok r` when it returns).  A `StepResult` models the dict
built by `execute_step`: its `result` field is `some r` exactly when the
dict has a `"result"` key, and reading a missing key raises `KeyError`. -/

structure PStep where
  id : String
  agent : String
  task : String
  dependencies : List String
deriving DecidableEq, Repr

structure Plan where
  steps : List PStep
  execution_order : List String
deriving DecidableEq, Repr

inductive PyErr where
  | keyError (k : String)
deriving DecidableEq, Repr

structure StepResult where
  step_id : String
  status : String
  result : Option Nat
  error : Option String
deriving DecidableEq, Repr

/-- Model of `AgentOrchestrator.execute_step`: unknown agents and raising
agents yield an `error` StepResult (with no `result` key); a returning
agent yields a `completed` StepResult carrying the result.  This function
never raises. -/
def execute_step (agents : String → Option (Except String Nat)) (step : PStep) : StepResult :=
  match agents step.agent with
  | none => ⟨step.id, "error", none, some ("Unknown agent: " ++ step.agent)⟩
  | some (.error e) => ⟨step.id, "error", none, some e⟩
  | some (.ok r) => ⟨step.id, "completed", some r, none⟩

/-- Model of the dependency-merge loop of `execute_plan`: for each declared
dependency already present in `results`, read `results[dep_id]["result"]`
— raising `KeyError("result")` when that StepResult has no `result` key —
and store it in the context under `result_<dep_id>`. -/
def mergeDeps (results : List (String × StepResult)) :
    List String → List (String × Nat) → Except PyErr (List (String × Nat))
  | [], ctx => .ok ctx
  | d :: ds, ctx =>
    match lookupA results d with
    | none => mergeDeps results ds ctx
    | some res =>
      match res.result with
      | none => .error (.keyError "result")
      | some v => mergeDeps results ds (setA ctx ("result_" ++ d) v)

/-- Model of the main loop of `AgentOrchestrator.execute_plan`: walk
`execution_order`, skip ids without a step, merge dependency results into
the context, execute the step, record its StepResult, and publish its
result into the context when it completed. -/
def planGo (agents : String → Option (Except String Nat)) (stepsById : List (String × PStep)) :
    List String → List (String × StepResult) → List (String × Nat) →
    Except PyErr (List (String × StepResult) × List (String × Nat))
  | [], results, ctx => .ok (results, ctx)
  | sid :: rest, results, ctx =>
    match lookupA stepsById sid with
    | none => planGo agents stepsById rest results ctx
    | some step =>
      match mergeDeps results step.dependencies ctx with
      | .error e => .error e
      | .ok ctx1 =>
        let res := execute_step agents step
        let results1 := setA results step.id res
        let ctx2 :=
          if res.status = "completed" then
            match res.result with
            | some r => setA ctx1 ("result_" ++ step.id) r
            | none => ctx1
          else ctx1
        planGo agents stepsById rest results1 ctx2

/-- Model of `AgentOrchestrator.execute_plan`: build `steps_by_id`, run the
loop, and return `list(results.values())` together with the final context. -/
def execute_plan (agents : String → Option (Except String Nat)) (plan : Plan)
    (ctx : List (String × Nat)) : Except PyErr (List StepResult × List (String × Nat)) :=
  let stepsById := plan.steps.foldl (fun m s => setA m s.id s) []
  (planGo agents stepsById plan.execution_order [] ctx).map fun p => (p.1.map Prod.snd, p.2)

/-- Agent table for the failing input of C1: `claude` raises, `codex`
returns 7, everything else is unknown. -/
def demoAgents : String → Option (Except String Nat) := fun a =>
  if a = "claude" then some (.error "boom")
  else if a = "codex" then some (.ok 7)
  else none

/-- Failing input of C1: step `s1` (whose agent raises) followed by step
`s2` that depends on `s1`. -/
def demoPlan : Plan :=
  ⟨[⟨"s1", "claude", "analyse", []⟩, ⟨"s2", "codex", "implement", ["s1"]⟩],
   ["s1", "s2"]⟩

/-- C1 (code behaviour at the failing input): running the two-step plan in
which step `s1` errors and step `s2` depends on `s1` aborts the whole run
with `KeyError("result")` — the dependency merge reads
`results["s1"]["result"]` but an error StepResult carries no `result` key —
contradicting the claim that a single step failure never aborts the plan
and that the downstream context simply lacks the errored dependency's
entry. -/
theorem plan_dependency_keyerror :
    execute_plan demoAgents demoPlan [] = .error (.keyError "result") := rfl

/-- Outcome of the external reasoner call inside `decompose_task`:
`call_claude` raised; it returned text in which the regex finds no JSON
object; the regex matched and `json.loads` produced a plan; or the regex
matched but `json.loads` raised. -/
inductive DecompOutcome where
  | raises
  | noJsonMatch
  | jsonPlan (p : Plan)
  | jsonLoadFails
deriving DecidableEq, Repr

/-- Fallback plan returned when the reasoner's output contains no JSON
object: analysis step then implementation step depending on it. -/
def fallbackTwoStep (task : String) : Plan :=
  ⟨[⟨"step_1", "claude", "Analyze and plan approach for: " ++ task, []⟩,
    ⟨"step_2", "codex", "Implement solution based on analysis", ["step_1"]⟩],
   ["step_1", "step_2"]⟩

/-- Fallback plan returned by the `except` branch of `decompose_task`: a
single analysis step. -/
def fallbackOneStep (task : String) : Plan :=
  ⟨[⟨"step_1", "claude", task, []⟩], ["step_1"]⟩

/-- Model of `AgentOrchestrator.decompose_task`: parsed JSON is returned
as-is; output without a JSON object falls back to the two-step plan; a
raise anywhere in the `try` block (the reasoner call, or `json.loads` on a
matched but invalid JSON object) falls back to the one-step plan. -/
def decompose_task (task : String) : DecompOutcome → Plan
  | .jsonPlan p => p
  | .noJsonMatch => fallbackTwoStep task
  | .raises => fallbackOneStep task
  | .jsonLoadFails => fallbackOneStep task

/-- Counterexample to C7 as stated: when decomposition fails (the reasoner
call raises), `decompose_task` returns a one-step plan, not the
deterministic two-step plan the claim requires. -/
theorem decompose_fallback_counterexample :
    (decompose_task "build" .raises).steps.length = 1 ∧
    decompose_task "build" .raises ≠ fallbackTwoStep "build" := by
  decide

/-- C7 (amended): when the reasoner's output is unparsable (no JSON object
found), `decompose_task` returns the deterministic two-step plan — one
analysis step with no dependencies and one implementation step depending on
it, with `execution_order` listing the analysis step first; when
decomposition raises (the reasoner call fails, or the matched JSON fails to
load), it returns a deterministic one-step analysis plan instead. -/
theorem decompose_fallback_amended (task : String) :
    ((decompose_task task .noJsonMatch).steps.map PStep.id = ["step_1", "step_2"] ∧
     (decompose_task task .noJsonMatch).steps.map PStep.dependencies = [[], ["step_1"]] ∧
     (decompose_task task .noJsonMatch).steps.map PStep.agent = ["claude", "codex"] ∧
     (decompose_task task .noJsonMatch).execution_order = ["step_1", "step_2"]) ∧
    (decompose_task task .raises = decompose_task task .jsonLoadFails ∧
     (decompose_task task .raises).steps.map PStep.dependencies = [[]] ∧
     (decompose_task task .raises).execution_order = ["step_1"]) := by
  simp [decompose_task, fallbackTwoStep, fallbackOneStep]

/-! ### MCPServerEnhanced task registry (`src/mcp_server_enhanced.py`)

`handle_rpc` is modelled as a function of the server state, the fresh
`task_id` drawn by `uuid4()` (a natural number here), the request payload,
the wall-clock instants at entry and at completion, and the outcome of
`_execute_task` (`.error msg` covers both the unknown-agent `ValueError`
and an agent raising).  Python's falsy test `if not method:` treats both a
missing key and an empty string as invalid. -/

structure TaskRecord where
  task_id : Nat
  method : String
  agent_type : String
  status : String
  start_time : Nat
  end_time : Option Nat
  duration_ms : Option Nat
  result : Option Nat
  error : Option String
deriving DecidableEq, Repr

structure ServerState where
  active_tasks : List (Nat × TaskRecord)
  task_history : List TaskRecord
deriving DecidableEq, Repr

structure RpcPayload where
  method : Option String
  agent : Option String
deriving DecidableEq, Repr

structure RpcResponse where
  success : Bool
  result : Option Nat
  error : Option String
  task_id : Nat
  duration_ms : Nat
deriving DecidableEq, Repr

/-- Python falsiness of `payload.get(...)`: missing or empty string. -/
def isFalsy : Option String → Bool
  | none => true
  | some s => s = ""

/-- Model of the `except` branch of `handle_rpc`: if the task record was
created (the id is in the active set) mark it `failed`, stamp `end_time`
and `duration_ms`, and move it to history; either way answer
`success=false` with the error text. -/
def rpcFail (st : ServerState) (task_id : Nat) (e : String) (start now : Nat) :
    RpcResponse × ServerState :=
  let dur := (now - start) * 1000
  match lookupA st.active_tasks task_id with
  | some tr =>
    let trF := { tr with
      status := "failed", error := some e, duration_ms := some dur, end_time := some now }
    (⟨false, none, some e, task_id, dur⟩,
     ⟨delA st.active_tasks task_id, st.task_history ++ [trF]⟩)
  | none => (⟨false, none, some e, task_id, dur⟩, st)

/-- Model of `MCPServerEnhanced.handle_rpc`: validate `method` and `agent`
(a validation failure raises before any task record exists), register a
`running` record in the active set, run `_execute_task`, and on success
finalize the record as `completed` and move it to history — on any raise
fall into `rpcFail`. -/
def handle_rpc (st : ServerState) (task_id : Nat) (payload : RpcPayload)
    (start now : Nat) (exec : Except String Nat) : RpcResponse × ServerState :=
  if isFalsy payload.method then rpcFail st task_id "Method is required" start now
  else if isFalsy payload.agent then rpcFail st task_id "Agent parameter is required" start now
  else
    let tr0 : TaskRecord :=
      ⟨task_id, payload.method.getD "", payload.agent.getD "", "running", start,
       none, none, none, none⟩
    let st1 : ServerState := { st with active_tasks := setA st.active_tasks task_id tr0 }
    match exec with
    | .ok r =>
      let dur := (now - start) * 1000
      let trC := { tr0 with
        status := "completed", result := some r, duration_ms := some dur, end_time := some now }
      (⟨true, some r, none, task_id, dur⟩,
       ⟨delA st1.active_tasks task_id, st1.task_history ++ [trC]⟩)
    | .error e => rpcFail st1 task_id e start now

/-- Model of `MCPServerEnhanced._cancel_task`: idempotent — `false` when
the id is not active, otherwise mark the record `cancelled` with
`end_time` and `duration_ms` and move it to history. -/
def cancel_task (st : ServerState) (task_id : Nat) (now : Nat) : Bool × ServerState :=
  match lookupA st.active_tasks task_id with
  | none => (false, st)
  | some tr =>
    let trC := { tr with
      status := "cancelled", end_time := some now
      duration_ms := some ((now - tr.start_time) * 1000) }
    (true, ⟨delA st.active_tasks task_id, st.task_history ++ [trC]⟩)

/-- History truncation done by the sweeper: `task_history[-1000:]` once it
exceeds 1000 records. -/
def truncHistory (s : ServerState) : ServerState :=
  if s.task_history.length > 1000 then
    { s with task_history := s.task_history.drop (s.task_history.length - 1000) }
  else s

/-- Model of one pass of `MCPServerEnhanced._cleanup_expired_tasks`: collect
the active ids running longer than 300 seconds, cancel each, then truncate
history to its most recent 1000 records. -/
def cleanup_expired (st : ServerState) (now : Nat) : ServerState :=
  let expired := (st.active_tasks.filter fun p => decide (now - p.2.start_time > 300)).map Prod.fst
  truncHistory (expired.foldl (fun s tid => (cancel_task s tid now).2) st)

/-- Counterexample to C8 as stated: a request with no `method` (here with
an agent supplied, against the empty server state) is answered with
`success=false` and a human-readable error, but no task record is created
and nothing is appended to the history — the operation is absent from both
the active set and the history, where the claim requires it to be recorded
on every failure path. -/
theorem rpc_validation_unrecorded :
    (handle_rpc ⟨[], []⟩ 1 ⟨none, some "claude"⟩ 0 1 (.ok 0)).1.success = false ∧
    (handle_rpc ⟨[], []⟩ 1 ⟨none, some "claude"⟩ 0 1 (.ok 0)).1.error =
      some "Method is required" ∧
    (handle_rpc ⟨[], []⟩ 1 ⟨none, some "claude"⟩ 0 1 (.ok 0)).2.task_history = [] ∧
    (handle_rpc ⟨[], []⟩ 1 ⟨none, some "claude"⟩ 0 1 (.ok 0)).2.active_tasks = [] := by
  refine ⟨rfl, rfl, rfl, rfl⟩

/-- C8 (amended): every response of `handle_rpc` carries `success=true`
with a result or `success=false` with a human-readable error; and whenever
the request passes input validation (a non-falsy `method` and `agent`), the
operation is recorded in the task history with a terminal status
(`completed` or `failed`) under its task id.  Requests rejected by
validation are answered with an error but leave the registry untouched —
no record of them is created. -/
theorem rpc_response_and_history (st : ServerState) (task_id : Nat) (payload : RpcPayload)
    (start now : Nat) (exec : Except String Nat)
    (hfresh : lookupA st.active_tasks task_id = none) :
    (((handle_rpc st task_id payload start now exec).1.success = true ∧
      ((handle_rpc st task_id payload start now exec).1.result).isSome) ∨
     ((handle_rpc st task_id payload start now exec).1.success = false ∧
      ((handle_rpc st task_id payload start now exec).1.error).isSome)) ∧
    (if isFalsy payload.method ∨ isFalsy payload.agent then
      (handle_rpc st task_id payload start now exec).2 = st
     else ∃ tr ∈ (handle_rpc st task_id payload start now exec).2.task_history,
      tr.task_id = task_id ∧ (tr.status = "completed" ∨ tr.status = "failed")) := by
  by_cases hm : isFalsy payload.method
  · simp [handle_rpc, rpcFail, hfresh, hm]
  · by_cases ha : isFalsy payload.agent
    · simp [handle_rpc, rpcFail, hfresh, hm, ha]
    · rw [if_neg (by simp [hm, ha])]
      cases exec with
      | ok r =>
        constructor
        · left
          constructor <;> simp [handle_rpc, hm, ha]
        · refine ⟨⟨task_id, payload.method.getD "", payload.agent.getD "", "completed", start,
            some now, some ((now - start) * 1000), some r, none⟩, ?_, rfl, Or.inl rfl⟩
          simp [handle_rpc, hm, ha]
      | error e =>
        constructor
        · right
          constructor <;> simp [handle_rpc, rpcFail, hm, ha, lookupA_setA_self]
        · refine ⟨⟨task_id, payload.method.getD "", payload.agent.getD "", "failed", start,
            some now, some ((now - start) * 1000), none, some e⟩, ?_, rfl, Or.inr rfl⟩
          simp [handle_rpc, rpcFail, hm, ha, lookupA_setA_self]

/-- Witness for the amended C8 theorem: a valid request against the empty
registry whose execution fails is answered with `success=false` and leaves
a `failed` record in the history. -/
theorem rpc_response_and_history_witness :
    (((handle_rpc ⟨[], []⟩ 1 ⟨some "run", some "claude"⟩ 0 2 (.error "boom")).1.success = true ∧
      ((handle_rpc ⟨[], []⟩ 1 ⟨some "run", some "claude"⟩ 0 2 (.error "boom")).1.result).isSome) ∨
     ((handle_rpc ⟨[], []⟩ 1 ⟨some "run", some "claude"⟩ 0 2 (.error "boom")).1.success = false ∧
      ((handle_rpc ⟨[], []⟩ 1 ⟨some "run", some "claude"⟩ 0 2 (.error "boom")).1.error).isSome)) ∧
    (if isFalsy (some "run") ∨ isFalsy (some "claude") then
      (handle_rpc ⟨[], []⟩ 1 ⟨some "run", some "claude"⟩ 0 2 (.error "boom")).2 = ⟨[], []⟩
     else ∃ tr ∈ (handle_rpc ⟨[], []⟩ 1 ⟨some "run", some "claude"⟩ 0 2 (.error "boom")).2.task_history,
      tr.task_id = 1 ∧ (tr.status = "completed" ∨ tr.status = "failed")) :=
  rpc_response_and_history ⟨[], []⟩ 1 ⟨some "run", some "claude"⟩ 0 2 (.error "boom") rfl

/-- Every active record has status `running` and is keyed by its own id. -/
def activeOK (st : ServerState) : Prop :=
  ∀ p ∈ st.active_tasks, p.2.status = "running" ∧ p.2.task_id = p.1

/-- Every history record is terminal and carries `end_time` and
`duration_ms`. -/
def historyOK (st : ServerState) : Prop :=
  ∀ tr ∈ st.task_history,
    (tr.status = "completed" ∨ tr.status = "failed" ∨ tr.status = "cancelled") ∧
    tr.end_time.isSome ∧ tr.duration_ms.isSome

/-- No task id is simultaneously in the active set and in the history. -/
def disjointOK (st : ServerState) : Prop :=
  ∀ p ∈ st.active_tasks, ∀ tr ∈ st.task_history, p.1 ≠ tr.task_id

/-- The registry invariant of claim C10. -/
def RegInv (st : ServerState) : Prop := activeOK st ∧ historyOK st ∧ disjointOK st

/-- Active task ids are pairwise distinct (uuid4 draws are unique). -/
def keysND (st : ServerState) : Prop := (st.active_tasks.map Prod.fst).Nodup

/-- One operation of the task registry: an RPC request (with the fresh id
drawn for it, the two clock readings and the execution outcome), a
cancellation, or one pass of the background sweeper. -/
inductive RegOp where
  | rpc (task_id : Nat) (payload : RpcPayload) (start now : Nat) (exec : Except String Nat)
  | cancel (task_id : Nat) (now : Nat)
  | sweep (now : Nat)

/-- Registry state reached by one operation. -/
def applyOp (st : ServerState) : RegOp → ServerState
  | .rpc id p s n e => (handle_rpc st id p s n e).2
  | .cancel id n => (cancel_task st id n).2
  | .sweep n => cleanup_expired st n

/-- For an RPC operation, the id drawn by `uuid4()` is fresh: unused by any
active or historical record.  Cancellation and sweeping need nothing. -/
def freshFor (st : ServerState) : RegOp → Prop
  | .rpc id _ _ _ _ =>
      lookupA st.active_tasks id = none ∧ ∀ tr ∈ st.task_history, tr.task_id ≠ id
  | .cancel _ _ => True
  | .sweep _ => True

theorem cancel_preserves (st : ServerState) (id now : Nat)
    (hinv : RegInv st) (hnd : keysND st) :
    RegInv (cancel_task st id now).2 ∧ keysND (cancel_task st id now).2 := by
  obtain ⟨hact, hhist, hdis⟩ := hinv
  cases hlk : lookupA st.active_tasks id with
  | none => simpa [cancel_task, hlk] using ⟨⟨hact, hhist, hdis⟩, hnd⟩
  | some tr =>
    have htrmem : (id, tr) ∈ st.active_tasks := lookupA_mem hlk
    have htrid : tr.task_id = id := (hact _ htrmem).2
    simp only [cancel_task, hlk]
    refine ⟨⟨?_, ?_, ?_⟩, ?_⟩
    · intro p hp
      exact hact p (mem_delA hp)
    · intro tr' htr'
      rcases List.mem_append.mp htr' with h | h
      · exact hhist tr' h
      · rcases List.mem_singleton.mp h with rfl
        exact ⟨Or.inr (Or.inr rfl), rfl, rfl⟩
    · intro p hp tr' htr'
      rcases List.mem_append.mp htr' with h | h
      · exact hdis p (mem_delA hp) tr' h
      · rcases List.mem_singleton.mp h with rfl
        simpa [htrid] using mem_delA_key_ne hnd hp
    · exact ((delA_sublist _ _).map Prod.fst).nodup hnd

theorem state_drop_preserves (act : List (Nat × TaskRecord)) (hist : List TaskRecord)
    (n : Nat) (hinv : RegInv ⟨act, hist⟩) (hnd : keysND ⟨act, hist⟩) :
    RegInv ⟨act, hist.drop n⟩ ∧ keysND ⟨act, hist.drop n⟩ := by
  obtain ⟨ha, hh, hd⟩ := hinv
  refine ⟨⟨?_, ?_, ?_⟩, ?_⟩
  · intro p hp
    exact ha p hp
  · intro tr htr
    exact hh tr (List.mem_of_mem_drop htr)
  · intro p hp tr htr
    exact hd p hp tr (List.mem_of_mem_drop htr)
  · exact hnd

theorem trunc_preserves (s : ServerState) (hinv : RegInv s) (hnd : keysND s) :
    RegInv (truncHistory s) ∧ keysND (truncHistory s) := by
  obtain ⟨act, hist⟩ := s
  simp only [truncHistory]
  split
  · exact state_drop_preserves act hist _ hinv hnd
  · exact ⟨hinv, hnd⟩

theorem sweep_preserves (st : ServerState) (now : Nat)
    (hinv : RegInv st) (hnd : keysND st) :
    RegInv (cleanup_expired st now) ∧ keysND (cleanup_expired st now) := by
  have hfold : ∀ (ids : List Nat) (s : ServerState), RegInv s → keysND s →
      RegInv (ids.foldl (fun s tid => (cancel_task s tid now).2) s) ∧
      keysND (ids.foldl (fun s tid => (cancel_task s tid now).2) s) := by
    intro ids
    induction ids with
    | nil => intro s h1 h2; exact ⟨h1, h2⟩
    | cons i rest ih =>
      intro s h1 h2
      have h := cancel_preserves s i now h1 h2
      exact ih _ h.1 h.2
  obtain ⟨h1, h2⟩ := hfold
    ((st.active_tasks.filter fun p => decide (now - p.2.start_time > 300)).map Prod.fst)
    st hinv hnd
  exact trunc_preserves _ h1 h2

theorem rpc_preserves (st : ServerState) (id : Nat) (payload : RpcPayload)
    (start now : Nat) (exec : Except String Nat)
    (hinv : RegInv st) (hnd : keysND st)
    (hfa : lookupA st.active_tasks id = none) :
    RegInv (handle_rpc st id payload start now exec).2 ∧
    keysND (handle_rpc st id payload start now exec).2 := by
  obtain ⟨hact, hhist, hdis⟩ := hinv
  have hne : ∀ p ∈ st.active_tasks, p.1 ≠ id := lookupA_none_ne hfa
  have hkeep : ∀ (tnew : TaskRecord), tnew.task_id = id →
      (tnew.status = "completed" ∨ tnew.status = "failed" ∨ tnew.status = "cancelled") →
      tnew.end_time.isSome → tnew.duration_ms.isSome →
      RegInv ⟨st.active_tasks, st.task_history ++ [tnew]⟩ ∧
      keysND ⟨st.active_tasks, st.task_history ++ [tnew]⟩ := by
    intro tnew hid hst hend hdur
    refine ⟨⟨hact, ?_, ?_⟩, hnd⟩
    · intro tr htr
      rcases List.mem_append.mp htr with h | h
      · exact hhist tr h
      · rcases List.mem_singleton.mp h with rfl
        exact ⟨hst, hend, hdur⟩
    · intro p hp tr htr
      rcases List.mem_append.mp htr with h | h
      · exact hdis p hp tr h
      · rcases List.mem_singleton.mp h with rfl
        rw [hid]
        exact hne p hp
  by_cases hm : isFalsy payload.method
  · simpa [handle_rpc, rpcFail, hfa, hm] using ⟨⟨hact, hhist, hdis⟩, hnd⟩
  · by_cases ha : isFalsy payload.agent
    · simpa [handle_rpc, rpcFail, hfa, hm, ha] using ⟨⟨hact, hhist, hdis⟩, hnd⟩
    · cases exec with
      | ok r =>
        have hred : (handle_rpc st id payload start now (.ok r)).2 =
            ⟨st.active_tasks, st.task_history ++
              [⟨id, payload.method.getD "", payload.agent.getD "", "completed", start,
                some now, some ((now - start) * 1000), some r, none⟩]⟩ := by
          simp [handle_rpc, hm, ha, delA_setA_fresh _ hfa]
        rw [hred]
        exact hkeep _ rfl (Or.inl rfl) rfl rfl
      | error e =>
        have hred : (handle_rpc st id payload start now (.error e)).2 =
            ⟨st.active_tasks, st.task_history ++
              [⟨id, payload.method.getD "", payload.agent.getD "", "failed", start,
                some now, some ((now - start) * 1000), none, some e⟩]⟩ := by
          simp [handle_rpc, rpcFail, hm, ha, lookupA_setA_self, delA_setA_fresh _ hfa]
        rw [hred]
        exact hkeep _ rfl (Or.inr (Or.inl rfl)) rfl rfl

/-- C10: every operation of the task registry — request handling with a
fresh task id, cancellation, and one pass of the background sweeper —
preserves the invariant that every active record has status `running`
(keyed by its own id), every history record has a terminal status
(`completed`, `failed` or `cancelled`) with `end_time` and `duration_ms`
set, and no task id is in the active set and the history at once (active
ids staying pairwise distinct). -/
theorem registry_invariant_preserved (st : ServerState) (op : RegOp)
    (hinv : RegInv st) (hnd : keysND st) (hf : freshFor st op) :
    RegInv (applyOp st op) ∧ keysND (applyOp st op) := by
  cases op with
  | rpc id payload start now exec =>
    exact rpc_preserves st id payload start now exec hinv hnd hf.1
  | cancel id now =>
    exact cancel_preserves st id now hinv hnd
  | sweep now =>
    exact sweep_preserves st now hinv hnd

/-- Witness for C10: the invariant holds after a successful RPC against the
empty registry. -/
theorem registry_invariant_preserved_witness :
    RegInv (applyOp ⟨[], []⟩ (.rpc 1 ⟨some "run", some "claude"⟩ 0 2 (.ok 5))) ∧
    keysND (applyOp ⟨[], []⟩ (.rpc 1 ⟨some "run", some "claude"⟩ 0 2 (.ok 5))) :=
  registry_invariant_preserved ⟨[], []⟩ (.rpc 1 ⟨some "run", some "claude"⟩ 0 2 (.ok 5))
    (by refine ⟨?_, ?_, ?_⟩ <;> intro p hp <;> simp at hp)
    (by simp [keysND])
    (by exact ⟨rfl, by intro tr htr; simp at htr⟩)

end NSAI
